import Mathlib

/-!
# Verification of the streaming brainfuck interpreter

Shallow embedding of the `brainfuck` Go package: the interpreter state
(`BfState`), the eight default operation handlers (`opShiftRight`, …,
`opEndLoop`), the dispatch loop of `Run` (one iteration = `runStep`),
the lazy command cache, and the `WithCmd` operator-table registration.

Cells have the numeric type `DataType constraints.Signed`; we model a cell
as an `Int` reduced by two's-complement wraparound at a width `w`
(`wrap w`), which is Go's defined overflow behaviour for signed integers.
The command stream (`io.Reader`) is modelled as the list of bytes it will
deliver followed by either clean end-of-input or a read error
(`commandsErr`).  The input capability is the list of values its `Read`
will produce (exhaustion fails, as the repository's mock reader does);
the output capability collects written values and never fails.
-/

namespace Brainfuck

/-- Two's-complement wraparound of an `Int` at bit width `w`
(the semantics of Go arithmetic on a signed `w`-bit cell type). -/
def wrap (w : Nat) (x : Int) : Int :=
  (x + 2 ^ (w - 1)) % 2 ^ w - 2 ^ (w - 1)

/-- Read a tape cell at an `Int` index (`bf.Data[bf.DataPtr]`).
All verified runs stay in bounds; out of range reads 0. -/
def getNth (l : List Int) (i : Int) : Int :=
  if 0 ≤ i then l.getD i.toNat 0 else l.getD 0 0

/-- Write a tape cell at an `Int` index (`bf.Data[bf.DataPtr] = v`).
All verified runs stay in bounds; out of range is the identity. -/
def setNth (l : List Int) (i : Int) (v : Int) : List Int :=
  if 0 ≤ i then l.set i.toNat v else l

/-- The command cache `CmdCache = map[CmdPtrType]CmdType`, as an
association list keyed by command position. -/
def CmdCache : Type := List (Int × Nat)

instance : DecidableEq CmdCache := by
  unfold CmdCache
  infer_instance

/-- Map lookup `cmd, ok = cache[ptr]`. -/
def cacheGet (m : CmdCache) (k : Int) : Option Nat :=
  match m with
  | [] => none
  | (k1, v) :: rest => if k1 = k then some v else cacheGet rest k

/-- Map update `cache[ptr] = cmd`. -/
def cachePut (m : CmdCache) (k : Int) (v : Nat) : CmdCache :=
  match m with
  | [] => [(k, v)]
  | (k1, v1) :: rest =>
    if k1 = k then (k, v) :: rest else (k1, v1) :: cachePut rest k v

/-- The command bytes, `CmdShiftRight = CmdType('>')` etc. -/
def CmdShiftRight : Nat := 62

/-- Byte constant `CmdShiftLeft = CmdType('<')`. -/
def CmdShiftLeft : Nat := 60

/-- Byte constant `CmdPlus = CmdType('+')`. -/
def CmdPlus : Nat := 43

/-- Byte constant `CmdMinus = CmdType('-')`. -/
def CmdMinus : Nat := 45

/-- Byte constant `CmdOut = CmdType('.')`. -/
def CmdOut : Nat := 46

/-- Byte constant `CmdIn = CmdType(',')`. -/
def CmdIn : Nat := 44

/-- Byte constant `CmdStartLoop = CmdType('[')`. -/
def CmdStartLoop : Nat := 91

/-- Byte constant `CmdEndLoop = CmdType(']')`. -/
def CmdEndLoop : Nat := 93

/-- Constant `DefaultDataSize = 4096`. -/
def DefaultDataSize : Int := 4096

/-- The interpreter state `BfInterpreter[DataType]`, together with the
modelled external collaborators: `commands`/`commandsErr` is the command
stream (`io.Reader`), `Input` the values the input capability will
deliver, `Output` the values written so far. `loopStack` lists loop
start positions, head = top of stack. -/
structure BfState where
  Data : List Int
  CmdPtr : Int
  DataPtr : Int
  Input : List Int
  Output : List Int
  loopStack : List Int
  cmdCache : Option CmdCache
  currentLoopEnd : Int
  commands : List Nat
  commandsErr : Bool
deriving DecidableEq

/-- Error taxonomy of the interpreter: boundary (tape edge), stack
underflow (`]` with no open loop), input failure, command-stream read
failure. -/
inductive ErrKind where
  | boundary
  | underflow
  | ioRead
  | streamRead
deriving DecidableEq

/-- An error returned by `Run`: the instruction position embedded in the
error message (`[#cmd: %d]`), when the message carries one, and the
kind of failure. -/
structure RunError where
  ptr : Option Int
  kind : ErrKind
deriving DecidableEq

/-- Handler `opShiftRight`: fails on the last valid index, else `DataPtr++`. -/
def opShiftRight (st : BfState) : BfState × Option ErrKind :=
  if (st.Data.length : Int) - 1 ≤ st.DataPtr then (st, some .boundary)
  else ({st with DataPtr := st.DataPtr + 1}, none)

/-- Handler `opShiftLeft`: fails at index 0 (or below), else `DataPtr--`. -/
def opShiftLeft (st : BfState) : BfState × Option ErrKind :=
  if st.DataPtr ≤ 0 then (st, some .boundary)
  else ({st with DataPtr := st.DataPtr - 1}, none)

/-- Handler `opPlus`: `bf.Data[bf.DataPtr] += 1` with wraparound at width `w`. -/
def opPlus (w : Nat) (st : BfState) : BfState × Option ErrKind :=
  ({st with Data := setNth st.Data st.DataPtr (wrap w (getNth st.Data st.DataPtr + 1))}, none)

/-- Handler `opMinus`: `bf.Data[bf.DataPtr] -= 1` with wraparound at width `w`. -/
def opMinus (w : Nat) (st : BfState) : BfState × Option ErrKind :=
  ({st with Data := setNth st.Data st.DataPtr (wrap w (getNth st.Data st.DataPtr - 1))}, none)

/-- Handler `opOut`: write the current cell to the output capability. -/
def opOut (st : BfState) : BfState × Option ErrKind :=
  ({st with Output := st.Output ++ [getNth st.Data st.DataPtr]}, none)

/-- Handler `opIn`: read one value from the input capability into the current
cell; an exhausted input fails (as the repository's mock reader does). -/
def opIn (st : BfState) : BfState × Option ErrKind :=
  match st.Input with
  | [] => (st, some .ioRead)
  | v :: rest => ({st with Data := setNth st.Data st.DataPtr v, Input := rest}, none)

/-- Handler `opStartLoop`: push `CmdPtr` unless it is already on top of the loop
stack; stay when the guard cell is non-zero, else pop and jump to
`currentLoopEnd` (the unconditional `CmdPtr++` then advances past it). -/
def opStartLoop (st : BfState) : BfState × Option ErrKind :=
  let ls := if st.loopStack.head? ≠ some st.CmdPtr then st.CmdPtr :: st.loopStack else st.loopStack
  if getNth st.Data st.DataPtr ≠ 0 then ({st with loopStack := ls}, none)
  else ({st with loopStack := ls.tail, CmdPtr := st.currentLoopEnd}, none)

/-- Handler `opEndLoop`: underflow when the loop stack is empty; else record
`currentLoopEnd := CmdPtr` and jump to (top − 1) so the unconditional
advance re-enters the loop start. -/
def opEndLoop (st : BfState) : BfState × Option ErrKind :=
  match st.loopStack.head? with
  | none => (st, some .underflow)
  | some loop => ({st with currentLoopEnd := st.CmdPtr, CmdPtr := loop - 1}, none)

/-- Whether a byte has a handler in the operator map built by `New`
(the eight baseline commands). -/
def isHandled (c : Nat) : Bool :=
  c = CmdShiftRight ∨ c = CmdShiftLeft ∨ c = CmdPlus ∨ c = CmdMinus ∨
    c = CmdOut ∨ c = CmdIn ∨ c = CmdStartLoop ∨ c = CmdEndLoop

/-- Dispatch through the default operator map: `opFunc(bf)`. -/
def applyOp (w : Nat) (c : Nat) (st : BfState) : BfState × Option ErrKind :=
  if c = CmdShiftRight then opShiftRight st
  else if c = CmdShiftLeft then opShiftLeft st
  else if c = CmdPlus then opPlus w st
  else if c = CmdMinus then opMinus w st
  else if c = CmdOut then opOut st
  else if c = CmdIn then opIn st
  else if c = CmdStartLoop then opStartLoop st
  else if c = CmdEndLoop then opEndLoop st
  else (st, none)

/-- Result of fetching the next command: a byte (with the stream
possibly advanced), clean end-of-input, or a stream read error. -/
inductive FetchRes where
  | got (c : Nat) (st : BfState)
  | eof
  | readErr
deriving DecidableEq

/-- The cache hit at the current command pointer, if any
(`cmd, ok = bf.cmdCache[bf.CmdPtr]`). -/
def cacheHit (st : BfState) : Option Nat :=
  match st.cmdCache with
  | some m => cacheGet m st.CmdPtr
  | none => none

/-- Fetch the next command: from the cache on a hit, else one byte from
the stream; an empty stream is clean end-of-input unless the reader
fails. -/
def fetchCmd (st : BfState) : FetchRes :=
  match cacheHit st with
  | some c => .got c st
  | none =>
    match st.commands with
    | [] => if st.commandsErr then .readErr else .eof
    | c :: rest => .got c {st with commands := rest}

/-- The two caching branches of `Run`, applied before the handler runs:
create the cache at a loop-start byte when it does not exist yet (and
record that byte), and record every command when the loop stack is
non-empty and a cache exists. -/
def cacheAfterDispatch (cache : Option CmdCache) (stack : List Int) (p : Int) (c : Nat) :
    Option CmdCache :=
  let c1 : Option CmdCache :=
    if c = CmdStartLoop ∧ cache = none then some (cachePut [] p c) else cache
  match c1 with
  | some m => if stack = [] then some m else some (cachePut m p c)
  | none => none

/-- Result of one iteration of the `Run` dispatch loop: successful
return of the final state (clean end-of-input), an error (with the
interpreter state at failure, observable on the receiver), or the next
state. -/
inductive StepRes where
  | done (st : BfState)
  | fail (e : RunError) (st : BfState)
  | next (st : BfState)
deriving DecidableEq

/-- One iteration of the `for` loop in `Run`: fetch (cache, then
stream), dispatch if a handler exists (caching per
`cacheAfterDispatch`, handler, cache discard once the loop stack is
empty), then the unconditional `bf.CmdPtr++`.  A handler failure is
wrapped with the instruction position (`failed to process [#cmd: %d]`);
a stream read failure is wrapped without one (`failed to read
command`). -/
def runStep (w : Nat) (st : BfState) : StepRes :=
  match fetchCmd st with
  | .eof => .done st
  | .readErr => .fail ⟨none, .streamRead⟩ st
  | .got c st1 =>
    if isHandled c then
      match applyOp w c
          {st1 with cmdCache := cacheAfterDispatch st1.cmdCache st1.loopStack st1.CmdPtr c} with
      | (stH, some k) => .fail ⟨some stH.CmdPtr, k⟩ stH
      | (stH, none) =>
        if stH.loopStack = [] then .next {stH with cmdCache := none, CmdPtr := stH.CmdPtr + 1}
        else .next {stH with CmdPtr := stH.CmdPtr + 1}
    else .next {st1 with CmdPtr := st1.CmdPtr + 1}

/-- The `Run` loop, fuelled: `none` means fuel ran out before the run
terminated. -/
def RunLoop (w : Nat) : Nat → BfState → Option (Except (RunError × BfState) BfState)
  | 0, _ => none
  | fuel + 1, st =>
    match runStep w st with
    | .done st1 => some (.ok st1)
    | .fail e st1 => some (.error (e, st1))
    | .next st1 => RunLoop w fuel st1

/-- Method `Run`: reset `CmdPtr` and `DataPtr` to 0, then iterate the dispatch
loop. -/
def Run (w : Nat) (fuel : Nat) (bf : BfState) : Option (Except (RunError × BfState) BfState) :=
  RunLoop w fuel {bf with CmdPtr := 0, DataPtr := 0}

/-- The tape size chosen by `New`: `dataSize`, or `DefaultDataSize` when
`dataSize == 0`. -/
def newDataSize (dataSize : Int) : Int :=
  if dataSize = 0 then DefaultDataSize else dataSize

/-- The zero-initialised tape allocated by `New`
(`make([]DataType, dataSize)`). -/
def newData (dataSize : Int) : List Int :=
  List.replicate (newDataSize dataSize).toNat 0

/-- Constructor `New`: fresh interpreter — zero tape of the chosen size, empty loop
stack, no cache, `currentLoopEnd` zero — attached to the given input
capability and command stream. -/
def New (dataSize : Int) (input : List Int) (commands : List Nat) (commandsErr : Bool) :
    BfState :=
  ⟨newData dataSize, 0, 0, input, [], [], none, 0, commands, commandsErr⟩

/-- The invariant tying the lifetimes of the command cache and the loop
stack: the cache is absent exactly while no loop is open. -/
def cacheInv (st : BfState) : Prop := st.cmdCache = none ↔ st.loopStack = []

/-- Final memory of a successful run (`Run` returned `(bf.Data, nil)`). -/
def runData (r : Option (Except (RunError × BfState) BfState)) : Option (List Int) :=
  match r with
  | some (.ok st) => some st.Data
  | _ => none

/-- Final data pointer left on the interpreter by a successful run. -/
def runDataPtr (r : Option (Except (RunError × BfState) BfState)) : Option Int :=
  match r with
  | some (.ok st) => some st.DataPtr
  | _ => none

/-- The error and the interpreter state at failure of a failing run. -/
def runFail (r : Option (Except (RunError × BfState) BfState)) :
    Option (RunError × BfState) :=
  match r with
  | some (.error p) => some p
  | _ => none

/-- Net displacement of a sequence of shift commands: `>` counts +1 and
`<` counts −1. -/
def netDisp : List Nat → Int
  | [] => 0
  | c :: rest =>
    (if c = CmdShiftRight then 1 else if c = CmdShiftLeft then -1 else 0) + netDisp rest

/-- The program `+++[>+++<-]` of the spec's end-to-end example 2. -/
def progLoopExample : List Nat :=
  [CmdPlus, CmdPlus, CmdPlus, CmdStartLoop, CmdShiftRight, CmdPlus, CmdPlus, CmdPlus,
    CmdShiftLeft, CmdMinus, CmdEndLoop]

/-- The program `++[x-]`: a loop body containing the unhandled comment
byte `x` (120). -/
def progCommentLoop : List Nat :=
  [CmdPlus, CmdPlus, CmdStartLoop, 120, CmdMinus, CmdEndLoop]

/-- The manual unrolling of `++[x-]` for a guard starting at 2: `++x-x-`. -/
def progCommentLoopUnrolled : List Nat :=
  [CmdPlus, CmdPlus, 120, CmdMinus, 120, CmdMinus]

/-- Method `WithCmd`: add or replace the operator-table entry for `cmd`, except
that the two loop markers cannot be overloaded — such a registration is
ignored and the table returned unchanged.  The table is modelled
extensionally as the lookup function of `opMap`. -/
def WithCmd {α : Type} (opMap : Nat → Option α) (cmd : Nat) (opFunc : α) :
    Nat → Option α :=
  if cmd ≠ CmdStartLoop ∧ cmd ≠ CmdEndLoop then
    fun c => if c = cmd then some opFunc else opMap c
  else opMap

/-! ## Basic lemmas about the embedded data structures -/

theorem cacheGet_cachePut (m : CmdCache) (k : Int) (v : Nat) :
    cacheGet (cachePut m k v) k = some v := by
  induction m with
  | nil => simp [cachePut, cacheGet]
  | cons hd tl ih =>
    obtain ⟨k1, v1⟩ := hd
    by_cases h : k1 = k
    · simp [cachePut, cacheGet, h]
    · simp [cachePut, cacheGet, h, ih]

theorem getD_set_self (l : List Int) (n : Nat) (v : Int) (h : n < l.length) :
    (l.set n v).getD n 0 = v := by
  induction l generalizing n with
  | nil => simp at h
  | cons hd tl ih =>
    cases n with
    | zero => simp
    | succ n => simpa using ih n (by simpa using h)

theorem set_getD_self (l : List Int) (n : Nat) (h : n < l.length) :
    l.set n (l.getD n 0) = l := by
  induction l generalizing n with
  | nil => simp at h
  | cons hd tl ih =>
    cases n with
    | zero => simp
    | succ n => simpa using ih n (by simpa using h)

theorem length_setNth (l : List Int) (i v : Int) :
    (setNth l i v).length = l.length := by
  unfold setNth
  split <;> simp

theorem getNth_setNth_self (l : List Int) (i v : Int) (h0 : 0 ≤ i)
    (h1 : i < (l.length : Int)) : getNth (setNth l i v) i = v := by
  unfold getNth setNth
  rw [if_pos h0, if_pos h0]
  exact getD_set_self l i.toNat v (by omega)

theorem setNth_setNth (l : List Int) (i v w : Int) :
    setNth (setNth l i v) i w = setNth l i w := by
  unfold setNth
  split
  · simp [List.set_set]
  · rfl

theorem setNth_getNth_self (l : List Int) (i : Int) (h0 : 0 ≤ i)
    (h1 : i < (l.length : Int)) : setNth l i (getNth l i) = l := by
  unfold getNth setNth
  rw [if_pos h0, if_pos h0]
  exact set_getD_self l i.toNat (by omega)

theorem wrap_add (w : Nat) (x c : Int) : wrap w (wrap w x + c) = wrap w (x + c) := by
  unfold wrap
  have h1 : (x + 2 ^ (w - 1)) % 2 ^ w - 2 ^ (w - 1) + c + 2 ^ (w - 1) =
      (x + 2 ^ (w - 1)) % 2 ^ w + c := by ring
  rw [h1, Int.emod_add_emod]
  have h2 : x + 2 ^ (w - 1) + c = x + c + 2 ^ (w - 1) := by ring
  rw [h2]

theorem wrap_wrap (w : Nat) (x : Int) : wrap w (wrap w x) = wrap w x := by
  have := wrap_add w x 0
  simpa using this

/-! ## Structural lemmas about fetching and dispatch -/

/-- Fetching a command touches nothing but the command stream. -/
theorem fetchCmd_got (st : BfState) (c : Nat) (stf : BfState)
    (h : fetchCmd st = .got c stf) :
    stf.Data = st.Data ∧ stf.CmdPtr = st.CmdPtr ∧ stf.DataPtr = st.DataPtr ∧
      stf.Input = st.Input ∧ stf.Output = st.Output ∧ stf.loopStack = st.loopStack ∧
      stf.cmdCache = st.cmdCache ∧ stf.currentLoopEnd = st.currentLoopEnd ∧
      stf.commandsErr = st.commandsErr := by
  unfold fetchCmd at h
  cases hhit : cacheHit st with
  | some c1 =>
    rw [hhit] at h
    cases h
    exact ⟨rfl, rfl, rfl, rfl, rfl, rfl, rfl, rfl, rfl⟩
  | none =>
    rw [hhit] at h
    cases hcs : st.commands with
    | nil =>
      rw [hcs] at h
      by_cases herr : st.commandsErr = true <;> simp [herr] at h
    | cons c1 rest =>
      rw [hcs] at h
      cases h
      exact ⟨rfl, rfl, rfl, rfl, rfl, rfl, rfl, rfl, rfl⟩

/-- Clean end-of-input characterised: cache miss, empty stream, no read
error. -/
theorem fetchCmd_eof_iff (st : BfState) :
    fetchCmd st = .eof ↔
      cacheHit st = none ∧ st.commands = [] ∧ st.commandsErr = false := by
  unfold fetchCmd
  cases hhit : cacheHit st with
  | some c1 => simp
  | none =>
    cases hcs : st.commands with
    | nil =>
      by_cases herr : st.commandsErr = true
      · simp [herr]
      · simp at herr
        simp [herr]
    | cons c1 rest => simp

theorem opShiftRight_cases (st : BfState) :
    opShiftRight st = (st, some .boundary) ∨
      opShiftRight st = ({st with DataPtr := st.DataPtr + 1}, none) := by
  unfold opShiftRight
  split
  · exact Or.inl rfl
  · exact Or.inr rfl

theorem opShiftLeft_cases (st : BfState) :
    opShiftLeft st = (st, some .boundary) ∨
      opShiftLeft st = ({st with DataPtr := st.DataPtr - 1}, none) := by
  unfold opShiftLeft
  split
  · exact Or.inl rfl
  · exact Or.inr rfl

theorem opIn_cases (st : BfState) :
    opIn st = (st, some .ioRead) ∨
      ∃ v rest, st.Input = v :: rest ∧
        opIn st = ({st with Data := setNth st.Data st.DataPtr v, Input := rest}, none) := by
  unfold opIn
  cases h : st.Input with
  | nil => exact Or.inl rfl
  | cons v rest => exact Or.inr ⟨v, rest, rfl, rfl⟩

theorem opStartLoop_cases (st : BfState) :
    (∃ ls, (opStartLoop st = ({st with loopStack := ls}, none) ∧
        getNth st.Data st.DataPtr ≠ 0) ∨
      opStartLoop st =
        ({st with loopStack := ls.tail, CmdPtr := st.currentLoopEnd}, none) ∧
        getNth st.Data st.DataPtr = 0) := by
  unfold opStartLoop
  refine ⟨if st.loopStack.head? ≠ some st.CmdPtr then st.CmdPtr :: st.loopStack else st.loopStack, ?_⟩
  by_cases h : getNth st.Data st.DataPtr ≠ 0
  · left
    rw [if_pos h]
    exact ⟨rfl, h⟩
  · right
    rw [if_neg h]
    push_neg at h
    exact ⟨rfl, h⟩

theorem opEndLoop_cases (st : BfState) :
    (opEndLoop st = (st, some .underflow) ∧ st.loopStack.head? = none) ∨
      ∃ loop, st.loopStack.head? = some loop ∧
        opEndLoop st =
          ({st with currentLoopEnd := st.CmdPtr, CmdPtr := loop - 1}, none) := by
  unfold opEndLoop
  cases h : st.loopStack.head? with
  | none => exact Or.inl ⟨rfl, rfl⟩
  | some loop => exact Or.inr ⟨loop, rfl, rfl⟩

/-- No default handler touches the command cache. -/
theorem applyOp_cmdCache (w : Nat) (c : Nat) (st : BfState) :
    (applyOp w c st).1.cmdCache = st.cmdCache := by
  unfold applyOp
  split_ifs <;> first
    | rfl
    | (rcases opShiftRight_cases st with h | h <;> rw [h])
    | (rcases opShiftLeft_cases st with h | h <;> rw [h])
    | (rcases opIn_cases st with h | ⟨v, rest, hin, h⟩ <;> rw [h])
    | (rcases opStartLoop_cases st with ⟨ls, ⟨h, hg⟩ | ⟨h, hg⟩⟩ <;> rw [h])
    | (rcases opEndLoop_cases st with ⟨h, hh⟩ | ⟨loop, hh, h⟩ <;> rw [h])

/-- Only the loop-start handler modifies the loop stack. -/
theorem applyOp_loopStack (w : Nat) (c : Nat) (st : BfState) (h : c ≠ CmdStartLoop) :
    (applyOp w c st).1.loopStack = st.loopStack := by
  unfold applyOp
  split_ifs <;> first
    | rfl
    | (exact absurd (by assumption) h)
    | (rcases opShiftRight_cases st with hc | hc <;> rw [hc])
    | (rcases opShiftLeft_cases st with hc | hc <;> rw [hc])
    | (rcases opIn_cases st with hc | ⟨v, rest, hin, hc⟩ <;> rw [hc])
    | (rcases opEndLoop_cases st with ⟨hc, hh⟩ | ⟨loop, hh, hc⟩ <;> rw [hc])

/-- A failing default handler performs no state mutation at all, and
handler failures are never of the stream-read kind. -/
theorem applyOp_fail (w : Nat) (c : Nat) (st : BfState) (k : ErrKind)
    (h : (applyOp w c st).2 = some k) :
    (applyOp w c st).1 = st ∧ k ≠ ErrKind.streamRead := by
  unfold applyOp at h ⊢
  split_ifs at h ⊢ <;> first
    | simp [opPlus, opMinus, opOut] at h
    | simp at h
    | (rcases opShiftRight_cases st with hc | hc <;> rw [hc] at h ⊢ <;> simp_all)
    | (rcases opShiftLeft_cases st with hc | hc <;> rw [hc] at h ⊢ <;> simp_all)
    | (rcases opIn_cases st with hc | ⟨v, rest, hin, hc⟩ <;> rw [hc] at h ⊢ <;> simp_all)
    | (rcases opStartLoop_cases st with ⟨ls, ⟨hc, hg⟩ | ⟨hc, hg⟩⟩ <;> rw [hc] at h ⊢ <;> simp_all)
    | (rcases opEndLoop_cases st with ⟨hc, hh⟩ | ⟨loop, hh, hc⟩ <;> rw [hc] at h ⊢ <;> simp_all)
  all_goals subst h
  all_goals decide

theorem runStep_fetch_eof (w : Nat) (st : BfState) (h : fetchCmd st = .eof) :
    runStep w st = .done st := by
  unfold runStep
  rw [h]

theorem runStep_fetch_readErr (w : Nat) (st : BfState) (h : fetchCmd st = .readErr) :
    runStep w st = .fail ⟨none, .streamRead⟩ st := by
  unfold runStep
  rw [h]

theorem runStep_got_unhandled (w : Nat) (st : BfState) (c : Nat) (stf : BfState)
    (h : fetchCmd st = .got c stf) (hh : isHandled c = false) :
    runStep w st = .next {stf with CmdPtr := stf.CmdPtr + 1} := by
  unfold runStep
  rw [h]
  dsimp only
  rw [hh]
  simp

theorem runStep_got_handled_fail (w : Nat) (st : BfState) (c : Nat) (stf stH : BfState)
    (k : ErrKind) (h : fetchCmd st = .got c stf) (hh : isHandled c = true)
    (happ : applyOp w c
        {stf with cmdCache := cacheAfterDispatch stf.cmdCache stf.loopStack stf.CmdPtr c} =
      (stH, some k)) :
    runStep w st = .fail ⟨some stH.CmdPtr, k⟩ stH := by
  unfold runStep
  rw [h]
  dsimp only
  rw [if_pos hh, happ]

theorem runStep_got_handled_ok (w : Nat) (st : BfState) (c : Nat) (stf stH : BfState)
    (h : fetchCmd st = .got c stf) (hh : isHandled c = true)
    (happ : applyOp w c
        {stf with cmdCache := cacheAfterDispatch stf.cmdCache stf.loopStack stf.CmdPtr c} =
      (stH, none)) :
    runStep w st =
      if stH.loopStack = [] then .next {stH with cmdCache := none, CmdPtr := stH.CmdPtr + 1}
      else .next {stH with CmdPtr := stH.CmdPtr + 1} := by
  unfold runStep
  rw [h]
  dsimp only
  rw [if_pos hh, happ]

theorem cacheAfterDispatch_none_notStart (stack : List Int) (p : Int) (c : Nat)
    (h : c ≠ CmdStartLoop) : cacheAfterDispatch none stack p c = none := by
  unfold cacheAfterDispatch
  simp [h]

theorem cacheAfterDispatch_none_start (stack : List Int) (p : Int) :
    cacheAfterDispatch none stack p CmdStartLoop =
      if stack = [] then some (cachePut [] p CmdStartLoop)
      else some (cachePut (cachePut [] p CmdStartLoop) p CmdStartLoop) := by
  unfold cacheAfterDispatch
  simp

theorem cacheAfterDispatch_some (stack : List Int) (p : Int) (c : Nat) (m : CmdCache) :
    cacheAfterDispatch (some m) stack p c =
      if stack = [] then some m else some (cachePut m p c) := by
  unfold cacheAfterDispatch
  simp

theorem cacheAfterDispatch_none_iff (cache : Option CmdCache) (stack : List Int) (p : Int)
    (c : Nat) :
    cacheAfterDispatch cache stack p c = none ↔ cache = none ∧ c ≠ CmdStartLoop := by
  cases cache with
  | none =>
    by_cases hc : c = CmdStartLoop
    · subst hc
      rw [cacheAfterDispatch_none_start]
      split <;> simp
    · rw [cacheAfterDispatch_none_notStart stack p c hc]
      simp [hc]
  | some m =>
    rw [cacheAfterDispatch_some]
    split <;> simp

/-- Under the cache-stack invariant, dispatching a handled command that is
a loop start or happens inside an open loop records it in the cache at the
current instruction position. -/
theorem cacheAfterDispatch_records (cache : Option CmdCache) (stack : List Int) (p : Int)
    (c : Nat) (hInv : cache = none ↔ stack = []) (h : c = CmdStartLoop ∨ stack ≠ []) :
    ∃ m, cacheAfterDispatch cache stack p c = some m ∧ cacheGet m p = some c := by
  by_cases hs : stack = []
  · have hcache : cache = none := hInv.mpr hs
    have hc : c = CmdStartLoop := by
      rcases h with h | h
      · exact h
      · exact absurd hs h
    subst hcache
    subst hc
    refine ⟨cachePut [] p CmdStartLoop, ?_, cacheGet_cachePut [] p CmdStartLoop⟩
    rw [cacheAfterDispatch_none_start, if_pos hs]
  · have hcache : cache ≠ none := fun hn => hs (hInv.mp hn)
    obtain ⟨m0, rfl⟩ : ∃ m0, cache = some m0 := by
      cases cache
      · exact absurd rfl hcache
      · exact ⟨_, rfl⟩
    refine ⟨cachePut m0 p c, ?_, cacheGet_cachePut m0 p c⟩
    rw [cacheAfterDispatch_some, if_neg hs]

/-- C2: throughout every run, the instruction cache obeys the protocol:
the cache/loop-stack invariant (`cacheInv`: no cache exactly while no
loop is open, so the cache is discarded exactly when the loop stack
returns to empty, not before) is preserved by every dispatch step; and
whenever a handled command is dispatched that is a loop start or occurs
while the loop stack is non-empty — whether it came from the stream or
from the cache — the cache exists from that moment and records the
command at its instruction-pointer position, and the resulting cache is
carried into the next state unless the loop stack has just emptied. -/
theorem C2_cache_lifecycle (w : Nat) :
    (∀ st st1, cacheInv st → runStep w st = .next st1 → cacheInv st1) ∧
    (∀ st c stf, cacheInv st → fetchCmd st = .got c stf → isHandled c = true →
      (c = CmdStartLoop ∨ st.loopStack ≠ []) →
      ∃ m, cacheAfterDispatch st.cmdCache st.loopStack st.CmdPtr c = some m ∧
        cacheGet m st.CmdPtr = some c ∧
        ∀ st1, runStep w st = .next st1 →
          st1.cmdCache = if st1.loopStack = [] then none else some m) := by
  constructor
  · intro st st1 hInv hstep
    cases hfetch : fetchCmd st with
    | eof =>
      rw [runStep_fetch_eof w st hfetch] at hstep
      cases hstep
    | readErr =>
      rw [runStep_fetch_readErr w st hfetch] at hstep
      cases hstep
    | got c stf =>
      obtain ⟨hD, hCP, hDP, hI, hO, hLS, hCC, hCLE, hErr⟩ := fetchCmd_got st c stf hfetch
      by_cases hh : isHandled c = true
      · rcases happ : applyOp w c
            {stf with cmdCache := cacheAfterDispatch stf.cmdCache stf.loopStack stf.CmdPtr c}
          with ⟨stH, e⟩
        cases e with
        | some k =>
          rw [runStep_got_handled_fail w st c stf stH k hfetch hh happ] at hstep
          cases hstep
        | none =>
          rw [runStep_got_handled_ok w st c stf stH hfetch hh happ] at hstep
          have hch : stH.cmdCache = cacheAfterDispatch stf.cmdCache stf.loopStack stf.CmdPtr c := by
            have h2 := applyOp_cmdCache w c
              {stf with cmdCache := cacheAfterDispatch stf.cmdCache stf.loopStack stf.CmdPtr c}
            rw [happ] at h2
            exact h2
          by_cases hls : stH.loopStack = []
          · rw [if_pos hls] at hstep
            cases hstep
            simp [cacheInv, hls]
          · rw [if_neg hls] at hstep
            cases hstep
            simp only [cacheInv]
            constructor
            · intro hnone
              exfalso
              rw [hch] at hnone
              obtain ⟨hc0, hc91⟩ := (cacheAfterDispatch_none_iff _ _ _ _).mp hnone
              have hstack : st.loopStack = [] := hInv.mp (by rw [← hCC]; exact hc0)
              have hstf : stf.loopStack = [] := by rw [hLS]; exact hstack
              have h3 := applyOp_loopStack w c
                {stf with cmdCache := cacheAfterDispatch stf.cmdCache stf.loopStack stf.CmdPtr c}
                hc91
              rw [happ] at h3
              exact hls (by rw [h3]; exact hstf)
            · intro habs
              exact absurd habs hls
      · have hh2 : isHandled c = false := by
          cases hhc : isHandled c
          · rfl
          · exact absurd hhc hh
        rw [runStep_got_unhandled w st c stf hfetch hh2] at hstep
        cases hstep
        simp only [cacheInv]
        rw [hCC, hLS]
        exact hInv
  · intro st c stf hInv hfetch hh hdisj
    obtain ⟨hD, hCP, hDP, hI, hO, hLS, hCC, hCLE, hErr⟩ := fetchCmd_got st c stf hfetch
    obtain ⟨m, hm, hget⟩ :=
      cacheAfterDispatch_records st.cmdCache st.loopStack st.CmdPtr c hInv hdisj
    refine ⟨m, hm, hget, ?_⟩
    intro st1 hstep
    have hm2 : cacheAfterDispatch stf.cmdCache stf.loopStack stf.CmdPtr c = some m := by
      rw [hCC, hLS, hCP]
      exact hm
    rcases happ : applyOp w c
        {stf with cmdCache := cacheAfterDispatch stf.cmdCache stf.loopStack stf.CmdPtr c}
      with ⟨stH, e⟩
    cases e with
    | some k =>
      rw [runStep_got_handled_fail w st c stf stH k hfetch hh happ] at hstep
      cases hstep
    | none =>
      rw [runStep_got_handled_ok w st c stf stH hfetch hh happ] at hstep
      have hch : stH.cmdCache = some m := by
        have h2 := applyOp_cmdCache w c
          {stf with cmdCache := cacheAfterDispatch stf.cmdCache stf.loopStack stf.CmdPtr c}
        rw [happ] at h2
        rw [h2]
        exact hm2
      by_cases hls : stH.loopStack = []
      · rw [if_pos hls] at hstep
        cases hstep
        simp [hls]
      · rw [if_neg hls] at hstep
        cases hstep
        simp [hls, hch]

/-- Witness for C2: instantiated at the one-command program `[` on a
fresh 4-cell tape (its guard cell is 0, so the step pops the loop and
discards the cache again). -/
theorem C2_cache_lifecycle_witness :
    cacheInv ⟨[0, 0, 0, 0], 1, 0, [], [], [], none, 0, [], false⟩ ∧
      ∃ m, cacheAfterDispatch (New 4 [] [CmdStartLoop] false).cmdCache
          (New 4 [] [CmdStartLoop] false).loopStack (New 4 [] [CmdStartLoop] false).CmdPtr
          CmdStartLoop = some m ∧
        cacheGet m (New 4 [] [CmdStartLoop] false).CmdPtr = some CmdStartLoop ∧
        ∀ st1, runStep 32 (New 4 [] [CmdStartLoop] false) = .next st1 →
          st1.cmdCache = if st1.loopStack = [] then none else some m :=
  ⟨(C2_cache_lifecycle 32).1 (New 4 [] [CmdStartLoop] false)
      ⟨[0, 0, 0, 0], 1, 0, [], [], [], none, 0, [], false⟩
      (by constructor <;> intro <;> rfl) (by decide),
    (C2_cache_lifecycle 32).2 (New 4 [] [CmdStartLoop] false) CmdStartLoop
      ⟨newData 4, 0, 0, [], [], [], none, 0, [], false⟩
      (by constructor <;> intro <;> rfl) (by decide) (by decide) (Or.inl rfl)⟩

/-- C1 (code bug, evaluated): the spec's example `+++[>+++<-]` does
replay correctly — cell 0 = 0, cell 1 = 9, data pointer back at 0 — but
replay equivalence with the manual unrolling fails as soon as a loop
body contains an unhandled (comment) byte, because skipped bytes are
never cached: `++[x-]` terminates "successfully" with cell 0 = 1 (the
cache miss at the comment's position on the second pass consumes the
stream to end-of-input mid-loop), while its manual unrolling `++x-x-`
leaves cell 0 = 0. -/
theorem C1_comment_byte_breaks_loop_replay :
    runData (Run 32 60 (New 4 [] progLoopExample false)) = some [0, 9, 0, 0] ∧
    runDataPtr (Run 32 60 (New 4 [] progLoopExample false)) = some 0 ∧
    runData (Run 32 30 (New 4 [] progCommentLoop false)) = some [1, 0, 0, 0] ∧
    runData (Run 32 30 (New 4 [] progCommentLoopUnrolled false)) = some [0, 0, 0, 0] ∧
    runData (Run 32 30 (New 4 [] progCommentLoop false)) ≠
      runData (Run 32 30 (New 4 [] progCommentLoopUnrolled false)) := by
  refine ⟨?_, ?_, ?_, ?_, ?_⟩ <;> decide

/-- C3 (code bug, evaluated): a loop whose guard cell is 0 the first
time its loop-start executes does not skip to just past the closing
bracket: `currentLoopEnd` has never been recorded for this loop (it is
still 0), so `[]` on a fresh tape jumps to position 0 + 1 = 1, redelivers
the pending stream byte `]` with an empty loop stack, and the run aborts
with a stack-underflow error at instruction 1 instead of terminating
cleanly. -/
theorem C3_zero_guard_first_entry_underflows :
    runFail (Run 32 10 (New 4 [] [CmdStartLoop, CmdEndLoop] false)) =
      some (⟨some 1, .underflow⟩, ⟨[0, 0, 0, 0], 1, 0, [], [], [], none, 0, [], false⟩) := by
  decide

/-- C4: `]` with an empty loop stack always fails with a stack-underflow
error and mutates nothing; the one-instruction program `]` fails with
the underflow error attributed to instruction position 0, both pointers
still 0. -/
theorem C4_endloop_empty_stack_underflow :
    (∀ st, st.loopStack = [] → opEndLoop st = (st, some .underflow)) ∧
    runFail (Run 32 10 (New 4 [] [CmdEndLoop] false)) =
      some (⟨some 0, .underflow⟩, ⟨[0, 0, 0, 0], 0, 0, [], [], [], none, 0, [], false⟩) := by
  constructor
  · intro st h
    unfold opEndLoop
    rw [h]
    rfl
  · decide

/-- Witness for C4 at the fresh interpreter, whose loop stack is empty. -/
theorem C4_endloop_empty_stack_underflow_witness :
    opEndLoop (New 4 [] [] false) = (New 4 [] [] false, some .underflow) :=
  C4_endloop_empty_stack_underflow.1 (New 4 [] [] false) rfl

/-- C8 (counterexample): a command-stream read failure is wrapped as
`failed to read command` without any instruction position, so not every
error returned by `Run` carries the instruction pointer of the failing
step: program `+` whose stream then fails errors at instruction 1 with
`ptr = none`. -/
theorem C8_stream_error_carries_no_ptr :
    runFail (Run 32 10 (New 4 [] [CmdPlus] true)) =
      some (⟨none, .streamRead⟩, ⟨[1, 0, 0, 0], 1, 0, [], [], [], none, 0, [], true⟩) ∧
    (⟨none, .streamRead⟩ : RunError).ptr ≠
      some (⟨[1, 0, 0, 0], 1, 0, [], [], [], none, 0, [], true⟩ : BfState).CmdPtr := by
  constructor <;> decide

/-- C6: `WithCmd` adds or replaces the operator-table entry for any
byte, except the two loop markers `[` and `]`, whose registration is
silently ignored, leaving the whole table unchanged. -/
theorem C6_withcmd_loop_markers_protected :
    ∀ (α : Type) (opMap : Nat → Option α) (cmd : Nat) (opFunc : α),
      (cmd ≠ CmdStartLoop → cmd ≠ CmdEndLoop →
        WithCmd opMap cmd opFunc cmd = some opFunc ∧
        ∀ c, c ≠ cmd → WithCmd opMap cmd opFunc c = opMap c) ∧
      ((cmd = CmdStartLoop ∨ cmd = CmdEndLoop) → WithCmd opMap cmd opFunc = opMap) := by
  intro α opMap cmd opFunc
  constructor
  · intro h1 h2
    unfold WithCmd
    rw [if_pos ⟨h1, h2⟩]
    constructor
    · simp
    · intro c hc
      simp [hc]
  · intro h
    unfold WithCmd
    rw [if_neg]
    rintro ⟨ha, hb⟩
    rcases h with h | h
    · exact ha h
    · exact hb h

/-- Witness for C6: registering `+` updates only that entry; registering
either loop marker leaves the table unchanged. -/
theorem C6_withcmd_loop_markers_protected_witness :
    WithCmd (fun _ => (none : Option Nat)) CmdPlus 7 CmdPlus = some 7 ∧
    WithCmd (fun _ => (none : Option Nat)) CmdPlus 7 CmdMinus = none ∧
    WithCmd (fun _ => (none : Option Nat)) CmdStartLoop 7 = (fun _ => none) ∧
    WithCmd (fun _ => (none : Option Nat)) CmdEndLoop 7 = (fun _ => none) :=
  ⟨((C6_withcmd_loop_markers_protected Nat (fun _ => none) CmdPlus 7).1
      (by decide) (by decide)).1,
    ((C6_withcmd_loop_markers_protected Nat (fun _ => none) CmdPlus 7).1
      (by decide) (by decide)).2 CmdMinus (by decide),
    (C6_withcmd_loop_markers_protected Nat (fun _ => none) CmdStartLoop 7).2 (Or.inl rfl),
    (C6_withcmd_loop_markers_protected Nat (fun _ => none) CmdEndLoop 7).2 (Or.inr rfl)⟩

/-- C10: `New` with `dataSize = 0` allocates the default tape of
`DefaultDataSize = 4096` zero cells; any positive `dataSize` allocates
exactly that many zero cells. -/
theorem C10_new_default_tape_size :
    (∀ input commands commandsErr,
      (New 0 input commands commandsErr).Data = List.replicate 4096 0) ∧
    (∀ (n : Int) input commands commandsErr, 0 < n →
      (New n input commands commandsErr).Data = List.replicate n.toNat 0) ∧
    DefaultDataSize = 4096 := by
  refine ⟨?_, ?_, rfl⟩
  · intro input commands commandsErr
    show newData 0 = _
    unfold newData newDataSize
    rw [if_pos rfl]
    rfl
  · intro n input commands commandsErr hn
    show newData n = _
    unfold newData newDataSize
    rw [if_neg (by omega)]

/-- Witness for C10: a 5-cell tape. -/
theorem C10_new_default_tape_size_witness :
    (New 5 [] [] false).Data = List.replicate 5 0 :=
  C10_new_default_tape_size.2.1 5 [] [] false (by decide)

theorem RunLoop_succ (w : Nat) (fuel : Nat) (st : BfState) :
    RunLoop w (fuel + 1) st =
      match runStep w st with
      | .done st1 => some (.ok st1)
      | .fail e st1 => some (.error (e, st1))
      | .next st1 => RunLoop w fuel st1 := rfl

theorem RunLoop_succ_next (w : Nat) (fuel : Nat) (st st1 : BfState)
    (h : runStep w st = .next st1) : RunLoop w (fuel + 1) st = RunLoop w fuel st1 := by
  rw [RunLoop_succ, h]

/-- A dispatch step succeeds (returning the current state, hence the
current memory) exactly on clean end-of-input: a cache miss with an
exhausted, non-failing stream. -/
theorem runStep_done_iff (w : Nat) (st st1 : BfState) :
    runStep w st = .done st1 ↔
      st1 = st ∧ cacheHit st = none ∧ st.commands = [] ∧ st.commandsErr = false := by
  constructor
  · intro h
    cases hfetch : fetchCmd st with
    | eof =>
      rw [runStep_fetch_eof w st hfetch] at h
      cases h
      obtain ⟨h1, h2, h3⟩ := (fetchCmd_eof_iff st).mp hfetch
      exact ⟨rfl, h1, h2, h3⟩
    | readErr =>
      rw [runStep_fetch_readErr w st hfetch] at h
      cases h
    | got c stf =>
      by_cases hh : isHandled c = true
      · rcases happ : applyOp w c
            {stf with cmdCache := cacheAfterDispatch stf.cmdCache stf.loopStack stf.CmdPtr c}
          with ⟨stH, e⟩
        cases e with
        | some k =>
          rw [runStep_got_handled_fail w st c stf stH k hfetch hh happ] at h
          cases h
        | none =>
          rw [runStep_got_handled_ok w st c stf stH hfetch hh happ] at h
          split at h <;> cases h
      · have hh2 : isHandled c = false := by
          cases hhc : isHandled c
          · rfl
          · exact absurd hhc hh
        rw [runStep_got_unhandled w st c stf hfetch hh2] at h
        cases h
  · rintro ⟨rfl, h1, h2, h3⟩
    exact runStep_fetch_eof w st1 ((fetchCmd_eof_iff st1).mpr ⟨h1, h2, h3⟩)

/-- A run returns success only through a clean end-of-input step. -/
theorem RunLoop_ok_eof (w : Nat) (fuel : Nat) :
    ∀ st st1, RunLoop w fuel st = some (.ok st1) →
      cacheHit st1 = none ∧ st1.commands = [] ∧ st1.commandsErr = false := by
  induction fuel with
  | zero =>
    intro st st1 h
    simp [RunLoop] at h
  | succ fuel ih =>
    intro st st1 h
    rw [RunLoop_succ] at h
    cases hstep : runStep w st <;> rw [hstep] at h
    case done st2 =>
      have h2 : st2 = st1 := by
        cases h
        rfl
      subst h2
      obtain ⟨heq, h1, h2, h3⟩ := (runStep_done_iff w st st2).mp hstep
      subst heq
      exact ⟨h1, h2, h3⟩
    case fail e st2 => cases h
    case next st2 => exact ih st2 st1 h

/-- A failing dispatch step: a stream read failure carries no position
and changes nothing; a handler failure is attributed to the failing
step's instruction pointer, which the failing handler has left
untouched. -/
theorem runStep_fail_inv (w : Nat) (st : BfState) (e : RunError) (stE : BfState)
    (h : runStep w st = .fail e stE) :
    (e.kind = .streamRead → e.ptr = none ∧ stE = st) ∧
      (e.kind ≠ .streamRead → e.ptr = some stE.CmdPtr ∧ stE.CmdPtr = st.CmdPtr) := by
  cases hfetch : fetchCmd st with
  | eof =>
    rw [runStep_fetch_eof w st hfetch] at h
    cases h
  | readErr =>
    rw [runStep_fetch_readErr w st hfetch] at h
    cases h
    constructor
    · intro _
      exact ⟨rfl, rfl⟩
    · intro hk
      exact absurd rfl hk
  | got c stf =>
    obtain ⟨hD, hCP, hDP, hI, hO, hLS, hCC, hCLE, hErr⟩ := fetchCmd_got st c stf hfetch
    by_cases hh : isHandled c = true
    · rcases happ : applyOp w c
          {stf with cmdCache := cacheAfterDispatch stf.cmdCache stf.loopStack stf.CmdPtr c}
        with ⟨stH, e2⟩
      cases e2 with
      | some k =>
        rw [runStep_got_handled_fail w st c stf stH k hfetch hh happ] at h
        rw [StepRes.fail.injEq] at h
        obtain ⟨he, hst⟩ := h
        subst hst
        subst he
        obtain ⟨hsame, hk⟩ := applyOp_fail w c
          {stf with cmdCache := cacheAfterDispatch stf.cmdCache stf.loopStack stf.CmdPtr c} k
          (by rw [happ])
        have hstH : stH =
            {stf with cmdCache := cacheAfterDispatch stf.cmdCache stf.loopStack stf.CmdPtr c} := by
          have := congrArg Prod.fst happ
          rw [hsame] at this
          exact this.symm
        constructor
        · intro hks
          exact absurd hks hk
        · intro _
          refine ⟨rfl, ?_⟩
          rw [hstH]
          exact hCP
      | none =>
        rw [runStep_got_handled_ok w st c stf stH hfetch hh happ] at h
        split at h <;> cases h
    · have hh2 : isHandled c = false := by
        cases hhc : isHandled c
        · rfl
        · exact absurd hhc hh
      rw [runStep_got_unhandled w st c stf hfetch hh2] at h
      cases h

/-- A failing run fails through some failing dispatch step. -/
theorem RunLoop_fail_inv (w : Nat) (fuel : Nat) :
    ∀ st0 e stE, RunLoop w fuel st0 = some (.error (e, stE)) →
      ∃ stS, runStep w stS = .fail e stE := by
  induction fuel with
  | zero =>
    intro st0 e stE h
    simp [RunLoop] at h
  | succ fuel ih =>
    intro st0 e stE h
    rw [RunLoop_succ] at h
    cases hstep : runStep w st0 <;> rw [hstep] at h
    case done st2 => cases h
    case fail e2 st2 =>
      have h2 : e2 = e ∧ st2 = stE := by
        cases h
        exact ⟨rfl, rfl⟩
      obtain ⟨rfl, rfl⟩ := h2
      exact ⟨st0, hstep⟩
    case next st2 => exact ih st2 e stE h

/-- C7: `Run` resets both the instruction pointer and the data pointer
to 0 at its start (its result is independent of the interpreter's
incoming pointer values), and clean end-of-input is the sole success
terminator: a step succeeds exactly on a cache miss with an exhausted,
non-failing stream, returning the final state (hence its memory), and a
run can return success only through such a step — every other
termination is an error. -/
theorem C7_run_reset_and_clean_eof_success :
    (∀ w fuel bf a b, Run w fuel {bf with CmdPtr := a, DataPtr := b} = Run w fuel bf) ∧
    (∀ w st st1, runStep w st = .done st1 ↔
      st1 = st ∧ cacheHit st = none ∧ st.commands = [] ∧ st.commandsErr = false) ∧
    (∀ w fuel st st1, RunLoop w fuel st = some (.ok st1) →
      cacheHit st1 = none ∧ st1.commands = [] ∧ st1.commandsErr = false) :=
  ⟨fun _ _ _ _ _ => rfl, runStep_done_iff, fun w fuel => RunLoop_ok_eof w fuel⟩

/-- Witness for C7: pointer reset on a dirtied interpreter, and the
empty program terminating cleanly with its memory. -/
theorem C7_run_reset_and_clean_eof_success_witness :
    Run 32 1 {New 4 [] [] false with CmdPtr := 5, DataPtr := 7} = Run 32 1 (New 4 [] [] false) ∧
    runStep 32 (New 4 [] [] false) = .done (New 4 [] [] false) ∧
    (cacheHit (New 4 [] [] false) = none ∧ (New 4 [] [] false).commands = [] ∧
      (New 4 [] [] false).commandsErr = false) :=
  ⟨C7_run_reset_and_clean_eof_success.1 32 1 (New 4 [] [] false) 5 7,
    (C7_run_reset_and_clean_eof_success.2.1 32 (New 4 [] [] false) (New 4 [] [] false)).mpr
      ⟨rfl, by decide, rfl, rfl⟩,
    C7_run_reset_and_clean_eof_success.2.2 32 1 (New 4 [] [] false) (New 4 [] [] false)
      (by rfl)⟩

/-- C8 (amended): a handler failure (boundary, underflow, input) is
attributed to the instruction pointer of the failing step — the error
carries `some` of the failing state's `CmdPtr`, which the failing
handler left unchanged — while a command-stream read failure is wrapped
without any instruction position (`ptr = none`). -/
theorem C8_error_attribution :
    (∀ w st e stE, runStep w st = .fail e stE →
      (e.kind = .streamRead → e.ptr = none ∧ stE = st) ∧
      (e.kind ≠ .streamRead → e.ptr = some stE.CmdPtr ∧ stE.CmdPtr = st.CmdPtr)) ∧
    (∀ w fuel st0 e stE, RunLoop w fuel st0 = some (.error (e, stE)) →
      (e.kind = .streamRead → e.ptr = none) ∧
      (e.kind ≠ .streamRead → e.ptr = some stE.CmdPtr)) := by
  constructor
  · exact runStep_fail_inv
  · intro w fuel st0 e stE h
    obtain ⟨stS, hstep⟩ := RunLoop_fail_inv w fuel st0 e stE h
    obtain ⟨h1, h2⟩ := runStep_fail_inv w stS e stE hstep
    constructor
    · intro hk
      exact (h1 hk).1
    · intro hk
      exact (h2 hk).1

/-- Witness for C8: the boundary failure of program `<` is attributed to
instruction 0. -/
theorem C8_error_attribution_witness :
    (⟨some 0, ErrKind.boundary⟩ : RunError).ptr =
      some (⟨[0, 0, 0, 0], 0, 0, [], [], [], none, 0, [], false⟩ : BfState).CmdPtr :=
  (C8_error_attribution.2 32 10 (New 4 [] [CmdShiftLeft] false) ⟨some 0, .boundary⟩
      ⟨[0, 0, 0, 0], 0, 0, [], [], [], none, 0, [], false⟩ (by rfl)).2 (by decide)

theorem wrap_sub (w : Nat) (x c : Int) : wrap w (wrap w x - c) = wrap w (x - c) := by
  have h := wrap_add w x (-c)
  simpa [sub_eq_add_neg] using h

/-- One decrement undoes one increment on a representable cell. -/
theorem opMinus_opPlus (w : Nat) (st : BfState)
    (h0 : 0 ≤ st.DataPtr) (h1 : st.DataPtr < (st.Data.length : Int))
    (hw : wrap w (getNth st.Data st.DataPtr) = getNth st.Data st.DataPtr) :
    (opMinus w (opPlus w st).1).1 = st := by
  unfold opPlus opMinus
  dsimp only
  rw [getNth_setNth_self _ _ _ h0 h1, setNth_setNth, wrap_sub, add_sub_cancel_right, hw,
    setNth_getNth_self _ _ h0 h1]

/-- C9: `+` and `-` are inverse: for every starting cell value (any
value representable at the cell width, i.e. fixed by `wrap w`), `n`
increments followed by `n` decrements — each using the cell type's
native wraparound arithmetic, with no overflow check — restore the
whole interpreter state exactly: the cell holds its original value and
no other cell and neither pointer is modified. -/
theorem C9_plus_minus_inverse (w : Nat) (n : Nat) :
    ∀ st : BfState, 0 ≤ st.DataPtr → st.DataPtr < (st.Data.length : Int) →
      wrap w (getNth st.Data st.DataPtr) = getNth st.Data st.DataPtr →
      (fun s => (opMinus w s).1)^[n] ((fun s => (opPlus w s).1)^[n] st) = st := by
  induction n with
  | zero =>
    intro st h0 h1 hw
    simp
  | succ n ih =>
    intro st h0 h1 hw
    rw [Function.iterate_succ_apply', Function.iterate_succ_apply]
    have hDP : ((opPlus w st).1).DataPtr = st.DataPtr := rfl
    have hlen : (((opPlus w st).1).Data.length : Int) = (st.Data.length : Int) := by
      unfold opPlus
      dsimp only
      rw [length_setNth]
    have hget : getNth ((opPlus w st).1).Data ((opPlus w st).1).DataPtr =
        wrap w (getNth st.Data st.DataPtr + 1) := by
      unfold opPlus
      dsimp only
      exact getNth_setNth_self _ _ _ h0 h1
    have ih2 := ih (opPlus w st).1 (by rw [hDP]; exact h0) (by rw [hDP, hlen]; exact h1)
      (by rw [hget]; exact wrap_wrap w _)
    show (fun s => (opMinus w s).1)
        ((fun s => (opMinus w s).1)^[n] ((fun s => (opPlus w s).1)^[n] ((opPlus w st).1))) = st
    rw [ih2]
    exact opMinus_opPlus w st h0 h1 hw

/-- Witness for C9: two increments and two decrements at width 8 on a
fresh 4-cell tape. -/
theorem C9_plus_minus_inverse_witness :
    (fun s => (opMinus 8 s).1)^[2] ((fun s => (opPlus 8 s).1)^[2] (New 4 [] [] false)) =
      New 4 [] [] false :=
  C9_plus_minus_inverse 8 2 (New 4 [] [] false) (by decide) (by decide) (by decide)

theorem netDisp_nil : netDisp [] = 0 := rfl

theorem netDisp_cons (c : Nat) (l : List Nat) :
    netDisp (c :: l) =
      (if c = CmdShiftRight then 1 else if c = CmdShiftLeft then -1 else 0) + netDisp l := rfl

theorem applyOp_shiftRight (w : Nat) (st : BfState) :
    applyOp w CmdShiftRight st = opShiftRight st := rfl

theorem applyOp_shiftLeft (w : Nat) (st : BfState) :
    applyOp w CmdShiftLeft st = opShiftLeft st := rfl

/-- Outside any loop, a within-bounds shift command advances the data
pointer by its displacement, consumes its stream byte and caches
nothing. -/
theorem runStep_shift (w : Nat) (st : BfState) (c : Nat) (rest : List Nat)
    (hc : c = CmdShiftRight ∨ c = CmdShiftLeft)
    (hls : st.loopStack = []) (hcc : st.cmdCache = none)
    (hcm : st.commands = c :: rest)
    (hlo : 0 ≤ st.DataPtr + netDisp [c])
    (hhi : st.DataPtr + netDisp [c] ≤ (st.Data.length : Int) - 1) :
    runStep w st =
      .next
        {st with
          commands := rest
          cmdCache := none
          DataPtr := st.DataPtr + netDisp [c]
          CmdPtr := st.CmdPtr + 1} := by
  have hstf : fetchCmd st = .got c {st with commands := rest} := by
    unfold fetchCmd cacheHit
    rw [hcc, hcm]
  rcases hc with rfl | rfl
  · have hh : isHandled CmdShiftRight = true := by decide
    have hcad : cacheAfterDispatch ({st with commands := rest} : BfState).cmdCache
        ({st with commands := rest} : BfState).loopStack
        ({st with commands := rest} : BfState).CmdPtr CmdShiftRight = none := by
      dsimp only
      rw [hcc]
      exact cacheAfterDispatch_none_notStart _ _ _ (by decide)
    have hhi2 : st.DataPtr + 1 ≤ (st.Data.length : Int) - 1 := by
      rw [netDisp_cons, netDisp_nil, if_pos rfl] at hhi
      omega
    have happ : applyOp w CmdShiftRight
        {({st with commands := rest} : BfState) with
          cmdCache := cacheAfterDispatch ({st with commands := rest} : BfState).cmdCache
            ({st with commands := rest} : BfState).loopStack
            ({st with commands := rest} : BfState).CmdPtr CmdShiftRight} =
        ({st with commands := rest, cmdCache := none, DataPtr := st.DataPtr + 1}, none) := by
      rw [hcad, applyOp_shiftRight]
      unfold opShiftRight
      rw [if_neg (by dsimp only; omega)]
    have hlsH : ({st with commands := rest, cmdCache := none, DataPtr := st.DataPtr + 1} : BfState).loopStack = [] := hls
    rw [runStep_got_handled_ok w st CmdShiftRight {st with commands := rest}
      {st with commands := rest, cmdCache := none, DataPtr := st.DataPtr + 1} hstf hh happ]
    rw [if_pos hlsH]
    rfl
  · have hh : isHandled CmdShiftLeft = true := by decide
    have hcad : cacheAfterDispatch ({st with commands := rest} : BfState).cmdCache
        ({st with commands := rest} : BfState).loopStack
        ({st with commands := rest} : BfState).CmdPtr CmdShiftLeft = none := by
      dsimp only
      rw [hcc]
      exact cacheAfterDispatch_none_notStart _ _ _ (by decide)
    have hlo2 : 0 ≤ st.DataPtr - 1 := by
      rw [netDisp_cons, netDisp_nil, if_neg (by decide), if_pos rfl] at hlo
      omega
    have happ : applyOp w CmdShiftLeft
        {({st with commands := rest} : BfState) with
          cmdCache := cacheAfterDispatch ({st with commands := rest} : BfState).cmdCache
            ({st with commands := rest} : BfState).loopStack
            ({st with commands := rest} : BfState).CmdPtr CmdShiftLeft} =
        ({st with commands := rest, cmdCache := none, DataPtr := st.DataPtr - 1}, none) := by
      rw [hcad, applyOp_shiftLeft]
      unfold opShiftLeft
      rw [if_neg (by dsimp only; omega)]
    have hlsH : ({st with commands := rest, cmdCache := none, DataPtr := st.DataPtr - 1} : BfState).loopStack = [] := hls
    rw [runStep_got_handled_ok w st CmdShiftLeft {st with commands := rest}
      {st with commands := rest, cmdCache := none, DataPtr := st.DataPtr - 1} hstf hh happ]
    rw [if_pos hlsH]
    have harith : st.DataPtr + netDisp [CmdShiftLeft] = st.DataPtr - 1 := by
      rw [netDisp_cons, netDisp_nil, if_neg (by decide), if_pos rfl]
      ring
    rw [harith]

/-- A whole program of within-bounds shift commands runs to clean
end-of-input, moving the data pointer by the net displacement and
leaving the memory untouched. -/
theorem RunLoop_shifts (w : Nat) :
    ∀ (moves : List Nat) (st : BfState),
      (∀ c ∈ moves, c = CmdShiftRight ∨ c = CmdShiftLeft) →
      st.loopStack = [] → st.cmdCache = none →
      st.commands = moves → st.commandsErr = false →
      (∀ n, n ≤ moves.length →
        0 ≤ st.DataPtr + netDisp (List.take n moves) ∧
        st.DataPtr + netDisp (List.take n moves) ≤ (st.Data.length : Int) - 1) →
      ∃ stF, RunLoop w (moves.length + 1) st = some (.ok stF) ∧
        stF.DataPtr = st.DataPtr + netDisp moves ∧ stF.Data = st.Data := by
  intro moves
  induction moves with
  | nil =>
    intro st hmv hls hcc hcm herr hbnd
    have hfetch : fetchCmd st = .eof := by
      rw [fetchCmd_eof_iff]
      refine ⟨?_, hcm, herr⟩
      unfold cacheHit
      rw [hcc]
    refine ⟨st, ?_, by rw [netDisp_nil]; ring, rfl⟩
    rw [RunLoop_succ, runStep_fetch_eof w st hfetch]
  | cons c rest ih =>
    intro st hmv hls hcc hcm herr hbnd
    have hc := hmv c (List.mem_cons_self c rest)
    have hb1 := hbnd 1 (by simp)
    rw [List.take_succ_cons, List.take_zero] at hb1
    have hstep := runStep_shift w st c rest hc hls hcc hcm hb1.1 hb1.2
    have hbnd2 : ∀ n, n ≤ rest.length →
        0 ≤ (st.DataPtr + netDisp [c]) + netDisp (List.take n rest) ∧
        (st.DataPtr + netDisp [c]) + netDisp (List.take n rest) ≤ (st.Data.length : Int) - 1 := by
      intro n hn
      have hb := hbnd (n + 1) (by simpa using hn)
      rw [List.take_succ_cons, netDisp_cons] at hb
      rw [netDisp_cons c List.nil, netDisp_nil]
      constructor
      · have := hb.1
        linarith
      · have := hb.2
        linarith
    obtain ⟨stF, hrun, hdp, hdata⟩ := ih
      {st with
        commands := rest
        cmdCache := none
        DataPtr := st.DataPtr + netDisp [c]
        CmdPtr := st.CmdPtr + 1}
      (fun c2 hc2 => hmv c2 (List.mem_cons_of_mem c hc2)) hls rfl rfl herr hbnd2
    refine ⟨stF, ?_, ?_, ?_⟩
    · show RunLoop w (rest.length + 1 + 1) st = some (.ok stF)
      rw [RunLoop_succ_next w (rest.length + 1) st _ hstep]
      exact hrun
    · rw [hdp]
      show st.DataPtr + netDisp [c] + netDisp rest = st.DataPtr + netDisp (c :: rest)
      rw [netDisp_cons c rest, netDisp_cons c List.nil, netDisp_nil]
      ring
    · exact hdata

/-- C5: a program of `>`/`<` commands whose every prefix keeps the data
pointer within tape bounds runs to clean end-of-input with the final
data pointer equal to the net displacement and the memory untouched; a
shift at either edge (`<` at index 0, `>` at the last valid index)
fails with a boundary error and mutates nothing; and the program `<` on
a fresh tape fails with a boundary error attributed to instruction 0,
the data pointer still 0. -/
theorem C5_shift_net_displacement :
    (∀ (moves : List Nat) (size : Int) (w : Nat),
      (∀ c ∈ moves, c = CmdShiftRight ∨ c = CmdShiftLeft) → 0 < size →
      (∀ n, n ≤ moves.length →
        0 ≤ netDisp (List.take n moves) ∧ netDisp (List.take n moves) ≤ size - 1) →
      ∃ stF, Run w (moves.length + 1) (New size [] moves false) = some (.ok stF) ∧
        stF.DataPtr = netDisp moves ∧ stF.Data = List.replicate size.toNat 0) ∧
    (∀ st, st.DataPtr = 0 → opShiftLeft st = (st, some .boundary)) ∧
    (∀ st, st.DataPtr = (st.Data.length : Int) - 1 → opShiftRight st = (st, some .boundary)) ∧
    runFail (Run 32 10 (New 4 [] [CmdShiftLeft] false)) =
      some (⟨some 0, .boundary⟩, ⟨[0, 0, 0, 0], 0, 0, [], [], [], none, 0, [], false⟩) := by
  refine ⟨?_, ?_, ?_, by decide⟩
  · intro moves size w hmv hsize hbnd
    have hsz : newDataSize size = size := by
      unfold newDataSize
      rw [if_neg (by omega)]
    have hlen : (((New size [] moves false).Data.length : Nat) : Int) = size := by
      show (((newData size).length : Nat) : Int) = size
      unfold newData
      rw [List.length_replicate, hsz]
      exact Int.toNat_of_nonneg (by omega)
    have hbnd2 : ∀ n, n ≤ moves.length →
        0 ≤ (New size [] moves false).DataPtr + netDisp (List.take n moves) ∧
        (New size [] moves false).DataPtr + netDisp (List.take n moves) ≤
          ((New size [] moves false).Data.length : Int) - 1 := by
      intro n hn
      have hb := hbnd n hn
      have hdp0 : (New size [] moves false).DataPtr = 0 := rfl
      rw [hdp0, hlen]
      constructor
      · linarith [hb.1]
      · linarith [hb.2]
    obtain ⟨stF, hrun, hdp, hdata⟩ := RunLoop_shifts w moves (New size [] moves false)
      hmv rfl rfl rfl rfl hbnd2
    refine ⟨stF, hrun, ?_, ?_⟩
    · rw [hdp]
      show (0 : Int) + netDisp moves = netDisp moves
      exact zero_add _
    · rw [hdata]
      show newData size = _
      unfold newData
      rw [hsz]
  · intro st h
    unfold opShiftLeft
    rw [if_pos (by omega)]
  · intro st h
    unfold opShiftRight
    rw [if_pos (by omega)]

/-- Witness for C5: `>><` on a 4-cell tape ends with the data pointer
at its net displacement 1; `<` at index 0 and `>` at the last index
fail with boundary errors without mutation. -/
theorem C5_shift_net_displacement_witness :
    (∃ stF, Run 32 4 (New 4 [] [CmdShiftRight, CmdShiftRight, CmdShiftLeft] false) =
        some (.ok stF) ∧
      stF.DataPtr = netDisp [CmdShiftRight, CmdShiftRight, CmdShiftLeft] ∧
      stF.Data = List.replicate (Int.toNat 4) 0) ∧
    opShiftLeft (New 4 [] [] false) = (New 4 [] [] false, some .boundary) ∧
    opShiftRight (⟨[0, 0, 0, 0], 0, 3, [], [], [], none, 0, [], false⟩ : BfState) =
      (⟨[0, 0, 0, 0], 0, 3, [], [], [], none, 0, [], false⟩, some .boundary) :=
  ⟨C5_shift_net_displacement.1 [CmdShiftRight, CmdShiftRight, CmdShiftLeft] 4 32
      (by decide) (by decide)
      (by
        intro n hn
        have h4 : n ≤ 3 := by simpa using hn
        interval_cases n <;> decide),
    C5_shift_net_displacement.2.1 (New 4 [] [] false) rfl,
    C5_shift_net_displacement.2.2.1 (⟨[0, 0, 0, 0], 0, 3, [], [], [], none, 0, [], false⟩ : BfState)
      (by decide)⟩

end Brainfuck
